import Mathlib

/-!
Shallow embedding of the DailyEarners backend ledger core
(src/server.js and src/unnamed/part_000).

The embedded operations follow the source endpoints:
  * `/api/deposit`                    → `submitDeposit`
  * `/api/withdraw`                   → `submitWithdrawal`
  * `/api/admin/approve-transaction`  → `approve`
  * `/api/admin/reject-transaction`   → `reject`
  * `/api/admin/pending-transactions` → `listPending`

JS numbers on domain amounts are modelled as `Int` (the caller may supply
any numeric amount; stored amounts are validated positive at submission).
Transaction ids are strings (the source generates `Date.now().toString()`
and compares with `===`). ISO date strings, compared via
`new Date(a.date) - new Date(b.date)`, are modelled as `Nat` timestamps.
The admin check and the user lookup are outer plumbing shared by all admin
endpoints; the embedding models the per-user state transition each
endpoint performs once the user document has been fetched, plus a
store-level view (a list of `(userId, user)` documents) for the pending
listing.
-/

namespace DailyEarners

/-- Transaction status strings `'Pending' | 'Approved' | 'Rejected'`. -/
inductive TxStatus where
  | Pending
  | Approved
  | Rejected
deriving DecidableEq, Repr

/-- A transaction record as built by `/api/deposit` and `/api/withdraw`:
`{id, date, amount, method, status}` plus `account` for withdrawals
(deposits carry no account field, modelled as `none`). -/
structure Tx where
  id : String
  date : Nat
  amount : Int
  method : String
  account : Option String
  status : TxStatus
deriving DecidableEq, Repr

/-- The slice of a user document the ledger endpoints read and write:
`balance`, `depositHistory`, `withdrawHistory`, plus fields the ledger
endpoints never touch (kept to express frame conditions). -/
structure User where
  username : String
  email : String
  investments : List Int
  balance : Int
  depositHistory : List Tx
  withdrawHistory : List Tx
deriving DecidableEq, Repr

/-- `/api/register` initialises
`balance: 0, investments: [], depositHistory: [], withdrawHistory: []`. -/
def registerUser (username email : String) : User :=
  { username := username
    email := email
    investments := []
    balance := 0
    depositHistory := []
    withdrawHistory := [] }

/-- The distinct non-500 failure responses of the embedded endpoints.
`TransactionNotFound` is the error kind named by the specification for an
absent / non-Pending transaction id; it is part of the vocabulary so the
specified behaviour can be stated. -/
inductive ApiError where
  | UserNotFound
  | InvalidRequest
  | InsufficientBalance
  | TransactionNotFound
  | InvalidTransactionType
  | Unauthorized
deriving DecidableEq, Repr

/-- `/api/deposit`: validate (`amount` a positive number, `method`
non-falsy), then append a Pending record to `depositHistory`; the balance
is not changed at submission time. Returns the created record and the
unchanged balance, as the endpoint does. -/
def submitDeposit (u : User) (amount : Int) (method : String)
    (newId : String) (now : Nat) : Except ApiError (User × Tx × Int) :=
  if amount ≤ 0 ∨ method = "" then
    .error .InvalidRequest
  else
    let tx : Tx :=
      { id := newId, date := now, amount := amount, method := method
        account := none, status := .Pending }
    .ok ({ u with depositHistory := u.depositHistory ++ [tx] }, tx, u.balance)

/-- `/api/withdraw`: validate (`amount` a positive number, `method` and
`account` non-falsy), advisory check `balance < amount` →
`InsufficientBalance`, else append a Pending record to `withdrawHistory`;
the balance is NOT deducted at submission time. -/
def submitWithdrawal (u : User) (amount : Int) (method account : String)
    (newId : String) (now : Nat) : Except ApiError (User × Tx × Int) :=
  if amount ≤ 0 ∨ method = "" ∨ account = "" then
    .error .InvalidRequest
  else if u.balance < amount then
    .error .InsufficientBalance
  else
    let tx : Tx :=
      { id := newId, date := now, amount := amount, method := method
        account := some account, status := .Pending }
    .ok ({ u with withdrawHistory := u.withdrawHistory ++ [tx] }, tx, u.balance)

/-- The `history.map(tx => ...)` of the approval endpoint, with the
closure-mutated `newBalance` made explicit: every entry with the given id
and status Pending has `sign * amount` applied to the running balance and
its status set to Approved; every other entry is returned unchanged.
`sign` is `1` for the deposit branch and `-1` for the withdrawal branch. -/
def approveScan (txId : String) (sign : Int) :
    List Tx → Int → List Tx × Int
  | [], bal => ([], bal)
  | t :: rest, bal =>
    if t.id = txId ∧ t.status = .Pending then
      let r := approveScan txId sign rest (bal + sign * t.amount)
      ({ t with status := .Approved } :: r.1, r.2)
    else
      let r := approveScan txId sign rest bal
      (t :: r.1, r.2)

/-- `/api/admin/approve-transaction`, per-user core (admin check and user
lookup already done). Field validation rejects falsy `transactionId` /
`type` (`typeof amount !== 'number'` is discharged by the `Int` typing).
Deposit branch: map the deposit history, crediting `tx.amount` for each
Pending match, and store the new balance. Withdrawal branch: first the
guard `newBalance < amount` (against the caller-supplied `amount`!) →
`InsufficientBalance`; otherwise map the withdraw history, debiting
`tx.amount` for each Pending match, and store the new balance. Any other
`type` → `InvalidTransactionType`. Returns the updated user and the
`newBalance` of the 200 response. -/
def approve (u : User) (txId ty : String) (amount : Int) :
    Except ApiError (User × Int) :=
  if txId = "" ∨ ty = "" then
    .error .InvalidRequest
  else if ty = "deposit" then
    let r := approveScan txId 1 u.depositHistory u.balance
    .ok ({ u with depositHistory := r.1, balance := r.2 }, r.2)
  else if ty = "withdrawal" then
    if u.balance < amount then
      .error .InsufficientBalance
    else
      let r := approveScan txId (-1) u.withdrawHistory u.balance
      .ok ({ u with withdrawHistory := r.1, balance := r.2 }, r.2)
  else
    .error .InvalidTransactionType

/-- The `history.map(tx => ...)` of the rejection endpoint: every entry
with the given id and status Pending becomes Rejected, all others are
unchanged; no balance effect. -/
def rejectScan (txId : String) (l : List Tx) : List Tx :=
  l.map fun t =>
    if t.id = txId ∧ t.status = .Pending then { t with status := .Rejected }
    else t

/-- `/api/admin/reject-transaction`, per-user core: validation, then map
the history of the given type, updating only that history (the balance is
never written). -/
def reject (u : User) (txId ty : String) : Except ApiError User :=
  if txId = "" ∨ ty = "" then
    .error .InvalidRequest
  else if ty = "deposit" then
    .ok { u with depositHistory := rejectScan txId u.depositHistory }
  else if ty = "withdrawal" then
    .ok { u with withdrawHistory := rejectScan txId u.withdrawHistory }
  else
    .error .InvalidTransactionType

/-- One client-visible operation against a single user document, with
arbitrary caller-supplied parameters. -/
inductive Op where
  | deposit (amount : Int) (method : String) (newId : String) (now : Nat)
  | withdraw (amount : Int) (method account : String) (newId : String) (now : Nat)
  | approveOp (txId ty : String) (amount : Int)
  | rejectOp (txId ty : String)
deriving DecidableEq, Repr

/-- Apply one operation; a failed request writes nothing, so the stored
user document is unchanged on error. -/
def stepOp (u : User) : Op → User
  | .deposit a m i d =>
    match submitDeposit u a m i d with
    | .ok (u', _, _) => u'
    | .error _ => u
  | .withdraw a m acc i d =>
    match submitWithdrawal u a m acc i d with
    | .ok (u', _, _) => u'
    | .error _ => u
  | .approveOp t ty a =>
    match approve u t ty a with
    | .ok (u', _) => u'
    | .error _ => u
  | .rejectOp t ty =>
    match reject u t ty with
    | .ok u' => u'
    | .error _ => u

/-- Run a sequence of operations against a user document. -/
def runOps (u : User) (ops : List Op) : User :=
  ops.foldl stepOp u

/-- Sum of the amounts of the Approved transactions of a history. -/
def approvedTotal (l : List Tx) : Int :=
  (l.map fun t => if t.status = .Approved then t.amount else 0).sum

/-- Sum of the amounts a given approval call would apply: the amounts of
the Pending transactions carrying the given id. -/
def pendTotal (txId : String) (l : List Tx) : Int :=
  (l.map fun t =>
    if t.id = txId ∧ t.status = .Pending then t.amount else 0).sum

/-- The bookkeeping identity of the data model: the stored balance equals
the sum of Approved deposit amounts minus the sum of Approved withdrawal
amounts. -/
def balanceConsistent (u : User) : Prop :=
  u.balance = approvedTotal u.depositHistory - approvedTotal u.withdrawHistory

/-- A history holds no Pending transaction with the given id. -/
def noPendingWith (txId : String) (l : List Tx) : Prop :=
  ∀ t ∈ l, t.id = txId → t.status ≠ .Pending

/-- The Boolean match used by the admin endpoints:
`tx.id === transactionId && tx.status === 'Pending'`. -/
def isPendingMatch (txId : String) (t : Tx) : Bool :=
  decide (t.id = txId ∧ t.status = .Pending)

/-- A transaction as returned by `/api/admin/pending-transactions`: the
record spread together with the owning user's id and a
`'deposit' | 'withdrawal'` tag. -/
structure Tagged where
  tx : Tx
  userId : String
  ty : String
deriving DecidableEq, Repr

/-- The pending entries one user document contributes to the admin
listing: Pending deposits (tagged `'deposit'`), then Pending withdrawals
(tagged `'withdrawal'`). -/
def userPending (uid : String) (u : User) : List Tagged :=
  (u.depositHistory.filter fun t => decide (t.status = .Pending)).map
      (fun t => { tx := t, userId := uid, ty := "deposit" })
    ++ (u.withdrawHistory.filter fun t => decide (t.status = .Pending)).map
      (fun t => { tx := t, userId := uid, ty := "withdrawal" })

/-- The `forEach`/`concat` accumulation over the users snapshot. -/
def pendingAll : List (String × User) → List Tagged
  | [] => []
  | (uid, u) :: rest => userPending uid u ++ pendingAll rest

/-- The sort comparator `new Date(a.date) - new Date(b.date)` (ascending,
oldest first) on the modelled timestamps. -/
def dateLe (a b : Tagged) : Bool :=
  decide (a.tx.date ≤ b.tx.date)

/-- `/api/admin/pending-transactions`: collect every Pending transaction
across both histories of all users, tagged, and sort by date ascending. -/
def listPending (store : List (String × User)) : List Tagged :=
  (pendingAll store).mergeSort dateLe

/-- A concrete Pending withdrawal of 80. -/
def bigWithdrawal : Tx :=
  { id := "w1", date := 0, amount := 80, method := "m", account := some "a"
    status := .Pending }

/-- A concrete user holding balance 50 with `bigWithdrawal` pending. -/
def poorUser : User :=
  { username := "n", email := "e", investments := [], balance := 50
    depositHistory := [], withdrawHistory := [bigWithdrawal] }

/-- A concrete operation sequence from registration: deposit 100 and have
it approved, submit two withdrawals of 100 (both pass the advisory
check against the same unreserved balance), approve the first with
`amount = 100`, then approve the second with caller-supplied
`amount = 0`. -/
def overdrawOps : List Op :=
  [ .deposit 100 "card" "d1" 0
  , .approveOp "d1" "deposit" 100
  , .withdraw 100 "bank" "acct" "w1" 1
  , .withdraw 100 "bank" "acct" "w2" 2
  , .approveOp "w1" "withdrawal" 100
  , .approveOp "w2" "withdrawal" 0 ]

/-- A concrete deposit that has already been Approved. -/
def settledDeposit : Tx :=
  { id := "d1", date := 0, amount := 50, method := "m", account := none
    status := .Approved }

/-- A concrete user whose only transaction is the Approved
`settledDeposit`. -/
def settledUser : User :=
  { username := "n", email := "e", investments := [], balance := 100
    depositHistory := [settledDeposit], withdrawHistory := [] }

@[simp]
theorem approvedTotal_nil : approvedTotal [] = 0 := rfl

@[simp]
theorem approvedTotal_cons (t : Tx) (l : List Tx) :
    approvedTotal (t :: l) =
      (if t.status = .Approved then t.amount else 0) + approvedTotal l := by
  simp [approvedTotal]

theorem approvedTotal_append (l₁ l₂ : List Tx) :
    approvedTotal (l₁ ++ l₂) = approvedTotal l₁ + approvedTotal l₂ := by
  simp [approvedTotal]

@[simp]
theorem pendTotal_nil (txId : String) : pendTotal txId [] = 0 := rfl

@[simp]
theorem pendTotal_cons (txId : String) (t : Tx) (l : List Tx) :
    pendTotal txId (t :: l) =
      (if t.id = txId ∧ t.status = .Pending then t.amount else 0)
        + pendTotal txId l := by
  simp [pendTotal]

/-- The running balance returned by the approval map is the input balance
plus `sign` times the total Pending amount matching the id. -/
theorem approveScan_snd (txId : String) (sign : Int) (l : List Tx) (bal : Int) :
    (approveScan txId sign l bal).2 = bal + sign * pendTotal txId l := by
  induction l generalizing bal with
  | nil => simp [approveScan]
  | cons t rest ih =>
    simp only [approveScan, pendTotal_cons]
    split
    · rename_i h
      simp only [ih, if_pos h]
      ring
    · rename_i h
      simp only [ih, if_neg h]
      ring

/-- The approval map moves exactly the matching Pending amounts into the
Approved total. -/
theorem approvedTotal_approveScan (txId : String) (sign : Int)
    (l : List Tx) (bal : Int) :
    approvedTotal (approveScan txId sign l bal).1 =
      approvedTotal l + pendTotal txId l := by
  induction l generalizing bal with
  | nil => simp [approveScan]
  | cons t rest ih =>
    simp only [approveScan, pendTotal_cons]
    split
    · rename_i h
      simp only [approvedTotal_cons, ih, if_pos h]
      rw [h.2]
      simp
      ring
    · rename_i h
      simp only [approvedTotal_cons, ih, if_neg h]
      ring

/-- Rejection never changes the Approved total: a Pending entry that
becomes Rejected contributes 0 before and after, and nothing else moves. -/
theorem approvedTotal_rejectScan (txId : String) (l : List Tx) :
    approvedTotal (rejectScan txId l) = approvedTotal l := by
  induction l with
  | nil => rfl
  | cons t rest ih =>
    simp only [rejectScan, List.map_cons] at ih ⊢
    split
    · rename_i h
      rw [approvedTotal_cons, approvedTotal_cons, ih, h.2]
      simp
    · rw [approvedTotal_cons, approvedTotal_cons, ih]

/-- Closed form of a deposit-submission step on the stored user. -/
theorem stepOp_deposit (u : User) (a : Int) (m i : String) (d : Nat) :
    stepOp u (.deposit a m i d) =
      if a ≤ 0 ∨ m = "" then u
      else { u with depositHistory := u.depositHistory ++
        [{ id := i, date := d, amount := a, method := m, account := none
           status := .Pending }] } := by
  by_cases hc : a ≤ 0 ∨ m = ""
  · simp only [stepOp, submitDeposit, if_pos hc]
  · simp only [stepOp, submitDeposit, if_neg hc]

/-- Closed form of a withdrawal-submission step on the stored user. -/
theorem stepOp_withdraw (u : User) (a : Int) (m acc i : String) (d : Nat) :
    stepOp u (.withdraw a m acc i d) =
      if a ≤ 0 ∨ m = "" ∨ acc = "" then u
      else if u.balance < a then u
      else { u with withdrawHistory := u.withdrawHistory ++
        [{ id := i, date := d, amount := a, method := m, account := some acc
           status := .Pending }] } := by
  by_cases hc : a ≤ 0 ∨ m = "" ∨ acc = ""
  · simp only [stepOp, submitWithdrawal, if_pos hc]
  · by_cases hb : u.balance < a
    · simp only [stepOp, submitWithdrawal, if_neg hc, if_pos hb]
    · simp only [stepOp, submitWithdrawal, if_neg hc, if_neg hb]

/-- Closed form of an approval step on the stored user. -/
theorem stepOp_approve (u : User) (t ty : String) (a : Int) :
    stepOp u (.approveOp t ty a) =
      if t = "" ∨ ty = "" then u
      else if ty = "deposit" then
        { u with depositHistory := (approveScan t 1 u.depositHistory u.balance).1
                 balance := (approveScan t 1 u.depositHistory u.balance).2 }
      else if ty = "withdrawal" then
        if u.balance < a then u
        else
          { u with
            withdrawHistory := (approveScan t (-1) u.withdrawHistory u.balance).1
            balance := (approveScan t (-1) u.withdrawHistory u.balance).2 }
      else u := by
  by_cases hv : t = "" ∨ ty = ""
  · simp only [stepOp, approve, if_pos hv]
  · by_cases hd : ty = "deposit"
    · simp only [stepOp, approve, if_neg hv, if_pos hd]
    · by_cases hw : ty = "withdrawal"
      · by_cases hb : u.balance < a
        · simp only [stepOp, approve, if_neg hv, if_neg hd, if_pos hw, if_pos hb]
        · simp only [stepOp, approve, if_neg hv, if_neg hd, if_pos hw, if_neg hb]
      · simp only [stepOp, approve, if_neg hv, if_neg hd, if_neg hw]

/-- Closed form of a rejection step on the stored user. -/
theorem stepOp_reject (u : User) (t ty : String) :
    stepOp u (.rejectOp t ty) =
      if t = "" ∨ ty = "" then u
      else if ty = "deposit" then
        { u with depositHistory := rejectScan t u.depositHistory }
      else if ty = "withdrawal" then
        { u with withdrawHistory := rejectScan t u.withdrawHistory }
      else u := by
  by_cases hv : t = "" ∨ ty = ""
  · simp only [stepOp, reject, if_pos hv]
  · by_cases hd : ty = "deposit"
    · simp only [stepOp, reject, if_neg hv, if_pos hd]
    · by_cases hw : ty = "withdrawal"
      · simp only [stepOp, reject, if_neg hv, if_neg hd, if_pos hw]
      · simp only [stepOp, reject, if_neg hv, if_neg hd, if_neg hw]

/-- Every single operation, with arbitrary caller-supplied parameters,
preserves the bookkeeping identity. -/
theorem stepOp_balanceConsistent (u : User) (op : Op)
    (h : balanceConsistent u) : balanceConsistent (stepOp u op) := by
  cases op with
  | deposit a m i d =>
    rw [stepOp_deposit]
    split
    · exact h
    · simpa [balanceConsistent, approvedTotal_append] using h
  | withdraw a m acc i d =>
    rw [stepOp_withdraw]
    split
    · exact h
    · split
      · exact h
      · simpa [balanceConsistent, approvedTotal_append] using h
  | approveOp t ty a =>
    rw [stepOp_approve]
    split
    · exact h
    · split
      · simp only [balanceConsistent, approveScan_snd, approvedTotal_approveScan]
        rw [h]; ring
      · split
        · split
          · exact h
          · simp only [balanceConsistent, approveScan_snd,
              approvedTotal_approveScan]
            rw [h]; ring
        · exact h
  | rejectOp t ty =>
    rw [stepOp_reject]
    split
    · exact h
    · split
      · simpa [balanceConsistent, approvedTotal_rejectScan] using h
      · split
        · simpa [balanceConsistent, approvedTotal_rejectScan] using h
        · exact h

theorem runOps_balanceConsistent (u : User) (ops : List Op)
    (h : balanceConsistent u) : balanceConsistent (runOps u ops) := by
  induction ops generalizing u with
  | nil => exact h
  | cons op rest ih => exact ih _ (stepOp_balanceConsistent u op h)

/-- When no entry matches, the approval map is the identity and the
balance is untouched. -/
theorem approveScan_of_noPendingWith (txId : String) (sign : Int)
    (l : List Tx) (bal : Int) (h : noPendingWith txId l) :
    approveScan txId sign l bal = (l, bal) := by
  induction l generalizing bal with
  | nil => rfl
  | cons t rest ih =>
    have ht : ¬(t.id = txId ∧ t.status = .Pending) := by
      intro hc
      exact h t (List.mem_cons_self t rest) hc.1 hc.2
    have hrest : noPendingWith txId rest := fun x hx => h x (List.mem_cons_of_mem t hx)
    simp only [approveScan, if_neg ht, ih _ hrest]

/-- After the approval map has run, nothing Pending with the given id is
left: matches were switched to Approved and non-matches did not match. -/
theorem noPendingWith_approveScan (txId : String) (sign : Int)
    (l : List Tx) (bal : Int) :
    noPendingWith txId (approveScan txId sign l bal).1 := by
  induction l generalizing bal with
  | nil => intro t ht; cases ht
  | cons t rest ih =>
    simp only [approveScan]
    split
    · intro x hx hid
      rcases List.mem_cons.1 hx with hx | hx
      · subst hx; intro hc; cases hc
      · exact ih _ x hx hid
    · rename_i hne
      intro x hx hid
      rcases List.mem_cons.1 hx with hx | hx
      · subst hx; exact fun hs => hne ⟨hid, hs⟩
      · exact ih _ x hx hid

/-- When no entry matches, the rejection map is the identity. -/
theorem rejectScan_of_noPendingWith (txId : String) (l : List Tx)
    (h : noPendingWith txId l) : rejectScan txId l = l := by
  induction l with
  | nil => rfl
  | cons t rest ih =>
    have ht : ¬(t.id = txId ∧ t.status = .Pending) := by
      intro hc
      exact h t (List.mem_cons_self t rest) hc.1 hc.2
    have hrest : noPendingWith txId rest := fun x hx => h x (List.mem_cons_of_mem t hx)
    simp only [rejectScan, List.map_cons, if_neg ht]
    rw [show rest.map _ = rejectScan txId rest from rfl, ih hrest]

/-- After the rejection map has run, nothing Pending with the given id is
left. -/
theorem noPendingWith_rejectScan (txId : String) (l : List Tx) :
    noPendingWith txId (rejectScan txId l) := by
  intro x hx hid hs
  rw [rejectScan, List.mem_map] at hx
  obtain ⟨t, ht, hxt⟩ := hx
  by_cases hc : t.id = txId ∧ t.status = .Pending
  · rw [if_pos hc] at hxt
    subst hxt
    exact TxStatus.noConfusion hs
  · rw [if_neg hc] at hxt
    subst hxt
    exact hc ⟨hid, hs⟩

/-- Rebuild a structure update that writes back the fields it read. -/
theorem User_update_self (u : User) :
    ({ u with depositHistory := u.depositHistory, balance := u.balance } : User)
      = u := rfl

/-- `filter p l = [tx]`: the list splits as `front ++ tx :: back` with no
match in `front` or `back` and `tx` matching. -/
theorem filter_eq_single {α : Type} {p : α → Bool} {l : List α} {tx : α}
    (h : l.filter p = [tx]) :
    ∃ front back, l = front ++ tx :: back ∧
      (∀ t ∈ front, p t = false) ∧ (∀ t ∈ back, p t = false) ∧ p tx = true := by
  induction l with
  | nil => cases h
  | cons a rest ih =>
    by_cases ha : p a
    · rw [List.filter_cons_of_pos ha] at h
      obtain ⟨rfl, hrest⟩ := List.cons.inj h
      refine ⟨[], rest, rfl, ?_, ?_, ha⟩
      · intro t ht; cases ht
      · intro t ht
        simpa using List.filter_eq_nil_iff.1 hrest t ht
    · rw [List.filter_cons_of_neg ha] at h
      obtain ⟨front, back, hl, hf, hb, hp⟩ := ih h
      refine ⟨a :: front, back, ?_, ?_, hb, hp⟩
      · rw [hl]; rfl
      · intro t ht
        rcases List.mem_cons.1 ht with ht | ht
        · subst ht; simpa using ha
        · exact hf t ht

theorem noPendingWith_of_noMatch (txId : String) (l : List Tx)
    (h : ∀ t ∈ l, isPendingMatch txId t = false) : noPendingWith txId l :=
  fun t ht hid hs =>
    (of_decide_eq_false (h t ht)) ⟨hid, hs⟩

/-- The approval map passes over an unmatched front segment untouched. -/
theorem approveScan_append_noMatch (txId : String) (sign : Int)
    (front r : List Tx) (bal : Int)
    (h : ∀ t ∈ front, isPendingMatch txId t = false) :
    approveScan txId sign (front ++ r) bal =
      (front ++ (approveScan txId sign r bal).1,
       (approveScan txId sign r bal).2) := by
  induction front with
  | nil => rfl
  | cons a rest ih =>
    have ha : ¬(a.id = txId ∧ a.status = .Pending) :=
      of_decide_eq_false (h a (List.mem_cons_self a rest))
    simp only [List.cons_append, approveScan, if_neg ha, List.append_eq,
      ih fun t ht => h t (List.mem_cons_of_mem a ht)]

/-- The approval map on a history whose single match is `tx`: `tx` is
switched to Approved, every other entry is untouched, and the balance
moves by `sign * tx.amount`. -/
theorem approveScan_single (txId : String) (sign : Int)
    (front back : List Tx) (tx : Tx) (bal : Int)
    (hf : ∀ t ∈ front, isPendingMatch txId t = false)
    (hb : ∀ t ∈ back, isPendingMatch txId t = false)
    (htx : tx.id = txId ∧ tx.status = .Pending) :
    approveScan txId sign (front ++ tx :: back) bal =
      (front ++ { tx with status := .Approved } :: back,
       bal + sign * tx.amount) := by
  rw [approveScan_append_noMatch txId sign front _ bal hf]
  simp only [approveScan, if_pos htx,
    approveScan_of_noPendingWith txId sign back _ (noPendingWith_of_noMatch txId back hb)]

/-- The rejection map on a history whose single match is `tx`. -/
theorem rejectScan_single (txId : String) (front back : List Tx) (tx : Tx)
    (hf : ∀ t ∈ front, isPendingMatch txId t = false)
    (hb : ∀ t ∈ back, isPendingMatch txId t = false)
    (htx : tx.id = txId ∧ tx.status = .Pending) :
    rejectScan txId (front ++ tx :: back) =
      front ++ { tx with status := .Rejected } :: back := by
  have h1 : rejectScan txId front = front :=
    rejectScan_of_noPendingWith txId front (noPendingWith_of_noMatch txId front hf)
  have h2 : rejectScan txId back = back :=
    rejectScan_of_noPendingWith txId back (noPendingWith_of_noMatch txId back hb)
  rw [rejectScan] at h1 h2 ⊢
  rw [List.map_append, List.map_cons, h1, h2, if_pos htx]

/-- Membership in the accumulated pending listing, before sorting. -/
theorem mem_pendingAll (store : List (String × User)) (e : Tagged) :
    e ∈ pendingAll store ↔
      ∃ uid u, (uid, u) ∈ store ∧ e.userId = uid ∧ e.tx.status = .Pending ∧
        ((e.ty = "deposit" ∧ e.tx ∈ u.depositHistory) ∨
         (e.ty = "withdrawal" ∧ e.tx ∈ u.withdrawHistory)) := by
  induction store with
  | nil => simp [pendingAll]
  | cons hd rest ih =>
    obtain ⟨uid, u⟩ := hd
    simp only [pendingAll, List.mem_append, ih, List.mem_cons]
    constructor
    · rintro (he | ⟨uid', u', hmem, h1, h2, h3⟩)
      · rw [userPending, List.mem_append, List.mem_map, List.mem_map] at he
        rcases he with ⟨t, ht, rfl⟩ | ⟨t, ht, rfl⟩
        · rw [List.mem_filter] at ht
          exact ⟨uid, u, Or.inl rfl, rfl, of_decide_eq_true ht.2,
            Or.inl ⟨rfl, ht.1⟩⟩
        · rw [List.mem_filter] at ht
          exact ⟨uid, u, Or.inl rfl, rfl, of_decide_eq_true ht.2,
            Or.inr ⟨rfl, ht.1⟩⟩
      · exact ⟨uid', u', Or.inr hmem, h1, h2, h3⟩
    · rintro ⟨uid', u', hmem | hmem, h1, h2, h3⟩
      · left
        obtain ⟨huid, hu⟩ := Prod.mk.inj hmem
        subst huid; subst hu
        rw [userPending, List.mem_append, List.mem_map, List.mem_map]
        rcases h3 with ⟨hty, hmem'⟩ | ⟨hty, hmem'⟩
        · left
          refine ⟨e.tx, List.mem_filter.2 ⟨hmem', decide_eq_true h2⟩, ?_⟩
          cases e
          simp_all
        · right
          refine ⟨e.tx, List.mem_filter.2 ⟨hmem', decide_eq_true h2⟩, ?_⟩
          cases e
          simp_all
      · exact Or.inr ⟨uid', u', hmem, h1, h2, h3⟩

/-- C3: for every user state reachable by a sequence of
register/submit/approve/reject operations with arbitrary caller-supplied
parameters, the stored balance equals the sum of the amounts of Approved
transactions in the deposit history minus the sum of the amounts of
Approved transactions in the withdrawal history, with balance starting at
0 on registration. -/
theorem reachable_balance_is_approved_sum (username email : String)
    (ops : List Op) : balanceConsistent (runOps (registerUser username email) ops) :=
  runOps_balanceConsistent _ ops (by simp [balanceConsistent, registerUser])

/-- C2: the claimed invariant "the stored balance is never negative after
any operation" fails on the code: starting from registration, the
operation sequence `overdrawOps` (all of whose calls pass the endpoint
validations) leaves a stored balance of −100. The withdrawal-approval
guard compares the balance with the caller-supplied `amount` parameter
while the deduction uses the stored `tx.amount`, so an understated
parameter drives the balance negative. -/
theorem negative_balance_reachable :
    (runOps (registerUser "n" "e") overdrawOps).balance = -100 ∧
    (runOps (registerUser "n" "e") overdrawOps).balance < 0 :=
  ⟨rfl, by decide⟩

/-- C10: deposit approvals are independent of the caller-supplied amount
parameter: for any two numeric values of `amount` passed with type
`'deposit'`, the whole result (user record and `newBalance`) is the same,
because the credit applied is the stored transaction's amount and the
parameter is used only in input validation. -/
theorem approve_deposit_amount_independent (u : User) (txId : String)
    (a a' : Int) :
    approve u txId "deposit" a = approve u txId "deposit" a' := by
  simp [approve]

/-- C7: for every withdrawal submission against an existing user with a
well-formed request (positive numeric amount, non-empty method and
account), the submission fails with `InsufficientBalance` when
`balance < amount`; otherwise a Pending withdrawal transaction is
appended to the withdrawal history and the balance is left unchanged —
no funds are reserved at submission time. -/
theorem submitWithdrawal_spec (u : User) (amount : Int)
    (method account newId : String) (now : Nat)
    (hpos : 0 < amount) (hm : method ≠ "") (ha : account ≠ "") :
    (u.balance < amount →
      submitWithdrawal u amount method account newId now =
        .error .InsufficientBalance ∧
      stepOp u (.withdraw amount method account newId now) = u) ∧
    (amount ≤ u.balance →
      submitWithdrawal u amount method account newId now =
        .ok ({ u with withdrawHistory := u.withdrawHistory ++
            [{ id := newId, date := now, amount := amount, method := method
               account := some account, status := .Pending }] },
          { id := newId, date := now, amount := amount, method := method
            account := some account, status := .Pending },
          u.balance)) := by
  have hv : ¬(amount ≤ 0 ∨ method = "" ∨ account = "") := by
    push_neg
    exact ⟨by omega, hm, ha⟩
  constructor
  · intro hb
    constructor
    · rw [submitWithdrawal, if_neg hv, if_pos hb]
    · rw [stepOp_withdraw, if_neg hv, if_pos hb]
  · intro hb
    rw [submitWithdrawal, if_neg hv, if_neg (by omega)]

/-- Witness for C7 at a concrete user: balance 50, withdrawal of 80 is
rejected with `InsufficientBalance` and changes nothing; withdrawal of 30
is appended Pending with the balance untouched. -/
theorem submitWithdrawal_spec_witness :
    (submitWithdrawal poorUser 80 "bank" "acct" "w9" 7 =
        .error .InsufficientBalance ∧
      stepOp poorUser (.withdraw 80 "bank" "acct" "w9" 7) = poorUser) ∧
    submitWithdrawal poorUser 30 "bank" "acct" "w9" 7 =
      .ok ({ poorUser with withdrawHistory := poorUser.withdrawHistory ++
          [{ id := "w9", date := 7, amount := 30, method := "bank"
             account := some "acct", status := .Pending }] },
        { id := "w9", date := 7, amount := 30, method := "bank"
          account := some "acct", status := .Pending },
        poorUser.balance) := by
  constructor
  · exact (submitWithdrawal_spec poorUser 80 "bank" "acct" "w9" 7
      (by decide) (by decide) (by decide)).1 (by decide)
  · exact (submitWithdrawal_spec poorUser 30 "bank" "acct" "w9" 7
      (by decide) (by decide) (by decide)).2 (by decide)

/-- C1 counterexample: `poorUser` has balance 50 and a Pending withdrawal
of 80. Approving it with caller-supplied `amount = 10` succeeds: the
response's `newBalance` is −30 = 50 − 80, the stored balance becomes −30,
and the transaction is marked Approved — although `balance_before (50)`
is smaller than both the transaction's amount (80) and the claimed
threshold for success, and no `InsufficientBalance` failure occurs. -/
theorem approve_withdrawal_below_balance_succeeds :
    approve poorUser "w1" "withdrawal" 10 =
      .ok ({ poorUser with
              withdrawHistory := [{ bigWithdrawal with status := .Approved }]
              balance := -30 }, -30) ∧
    (-30 : Int) = 50 - 80 ∧ (50 : Int) < 80 :=
  ⟨rfl, by decide, by decide⟩

/-- C6 counterexample: `settledUser`'s only transaction `'d1'` is already
Approved, so the id names no Pending transaction — yet both the approval
and the rejection call return success (HTTP 200, user state unchanged)
instead of failing with `TransactionNotFound`. -/
theorem approve_reject_absent_id_succeed :
    approve settledUser "d1" "deposit" 50 = .ok (settledUser, 100) ∧
    reject settledUser "d1" "deposit" = .ok settledUser ∧
    approve settledUser "zzz" "deposit" 50 = .ok (settledUser, 100) ∧
    reject settledUser "zzz" "withdrawal" = .ok settledUser :=
  ⟨rfl, rfl, rfl, rfl⟩

/-- C5: for every user whose deposit history holds exactly one transaction
matching the given id as Pending, approving it (with any numeric `amount`
parameter) sets `newBalance = balance_before + tx.amount`, stores that
balance, and performs a single Pending→Approved transition: exactly that
entry's status changes, every other entry and the withdrawal history are
untouched. -/
theorem approve_deposit_spec (u : User) (txId : String) (amount : Int)
    (tx : Tx) (hid : txId ≠ "")
    (hfilter : u.depositHistory.filter (isPendingMatch txId) = [tx]) :
    ∃ front back,
      u.depositHistory = front ++ tx :: back ∧
      approve u txId "deposit" amount =
        .ok ({ u with
                depositHistory := front ++ { tx with status := .Approved } :: back
                balance := u.balance + tx.amount },
             u.balance + tx.amount) := by
  obtain ⟨front, back, hl, hf, hb, hp⟩ := filter_eq_single hfilter
  have htx : tx.id = txId ∧ tx.status = .Pending := of_decide_eq_true hp
  refine ⟨front, back, hl, ?_⟩
  rw [approve, if_neg (by simp [hid]), if_pos rfl, hl,
    approveScan_single txId 1 front back tx u.balance hf hb htx]
  norm_num

/-- Witness for C5: balance 100, a Pending deposit of 40 between two
non-matching entries; approval credits exactly 40. -/
theorem approve_deposit_spec_witness :
    ∃ front back,
      ([ settledDeposit,
         { id := "d2", date := 3, amount := 40, method := "m", account := none
           status := .Pending },
         { id := "d3", date := 4, amount := 7, method := "m", account := none
           status := .Pending } ] : List Tx) = front ++
        ({ id := "d2", date := 3, amount := 40, method := "m", account := none
           status := .Pending } : Tx) :: back ∧
      approve
        { username := "n", email := "e", investments := [], balance := 100
          depositHistory :=
            [ settledDeposit,
              { id := "d2", date := 3, amount := 40, method := "m"
                account := none, status := .Pending },
              { id := "d3", date := 4, amount := 7, method := "m"
                account := none, status := .Pending } ]
          withdrawHistory := [] } "d2" "deposit" 40 =
        .ok ({ username := "n", email := "e", investments := [], balance := 140
               depositHistory := front ++
                 ({ id := "d2", date := 3, amount := 40, method := "m"
                    account := none, status := .Approved } : Tx) :: back
               withdrawHistory := [] },
             140) := by
  obtain ⟨front, back, h1, h2⟩ :=
    approve_deposit_spec
      { username := "n", email := "e", investments := [], balance := 100
        depositHistory :=
          [ settledDeposit,
            { id := "d2", date := 3, amount := 40, method := "m"
              account := none, status := .Pending },
            { id := "d3", date := 4, amount := 7, method := "m"
              account := none, status := .Pending } ]
        withdrawHistory := [] } "d2" 40
      { id := "d2", date := 3, amount := 40, method := "m", account := none
        status := .Pending }
      (by decide) (by decide)
  exact ⟨front, back, h1, h2⟩

/-- C1 (amended): for a withdrawal approval whose caller-supplied `amount`
equals the stored amount of the unique Pending transaction matching the
id: the call succeeds with `newBalance = balance_before − amount` when
`balance_before ≥ amount`, flipping exactly that transaction to Approved;
otherwise it fails with `InsufficientBalance`, the stored state is
unchanged and the transaction remains Pending. (As stated over arbitrary
caller-supplied amounts the claim is false: the guard compares the
balance against the request parameter, the deduction uses the stored
amount — see the counterexample.) -/
theorem approve_withdrawal_spec (u : User) (txId : String) (amount : Int)
    (tx : Tx) (hid : txId ≠ "")
    (hfilter : u.withdrawHistory.filter (isPendingMatch txId) = [tx])
    (hamt : amount = tx.amount) :
    (amount ≤ u.balance →
      ∃ front back,
        u.withdrawHistory = front ++ tx :: back ∧
        approve u txId "withdrawal" amount =
          .ok ({ u with
                  withdrawHistory :=
                    front ++ { tx with status := .Approved } :: back
                  balance := u.balance - amount },
               u.balance - amount)) ∧
    (u.balance < amount →
      approve u txId "withdrawal" amount = .error .InsufficientBalance ∧
      stepOp u (.approveOp txId "withdrawal" amount) = u) := by
  obtain ⟨front, back, hl, hf, hb, hp⟩ := filter_eq_single hfilter
  have htx : tx.id = txId ∧ tx.status = .Pending := of_decide_eq_true hp
  have hv : ¬(txId = "" ∨ ("withdrawal" : String) = "") := by simp [hid]
  constructor
  · intro hba
    refine ⟨front, back, hl, ?_⟩
    rw [approve, if_neg hv, if_neg (by decide), if_pos rfl,
      if_neg (by omega), hl,
      approveScan_single txId (-1) front back tx u.balance hf hb htx]
    rw [hamt]
    norm_num
    rw [sub_eq_add_neg]
  · intro hba
    constructor
    · rw [approve, if_neg hv, if_neg (by decide), if_pos rfl, if_pos hba]
    · rw [stepOp_approve, if_neg hv, if_neg (by decide), if_pos rfl,
        if_pos hba]

/-- Witness for C1 (amended) at `poorUser` (balance 50, Pending
withdrawal of 80 with matching caller amount 80): the approval fails with
`InsufficientBalance` and the state is unchanged. -/
theorem approve_withdrawal_spec_witness :
    approve poorUser "w1" "withdrawal" 80 = .error .InsufficientBalance ∧
    stepOp poorUser (.approveOp "w1" "withdrawal" 80) = poorUser :=
  (approve_withdrawal_spec poorUser "w1" 80 bigWithdrawal
    (by decide) (by decide) (by decide)).2 (by decide)

/-- C9: for every user whose history of the given type holds exactly one
transaction matching the given id as Pending, rejecting it transitions
exactly that entry from Pending to Rejected and leaves the balance, the
other history, every other entry, and every other field of the user
record unchanged — for both deposit and withdrawal types. -/
theorem reject_spec (u : User) (txId : String) (tx : Tx) (hid : txId ≠ "") :
    (u.depositHistory.filter (isPendingMatch txId) = [tx] →
      ∃ front back,
        u.depositHistory = front ++ tx :: back ∧
        reject u txId "deposit" =
          .ok { u with
                depositHistory :=
                  front ++ { tx with status := .Rejected } :: back }) ∧
    (u.withdrawHistory.filter (isPendingMatch txId) = [tx] →
      ∃ front back,
        u.withdrawHistory = front ++ tx :: back ∧
        reject u txId "withdrawal" =
          .ok { u with
                withdrawHistory :=
                  front ++ { tx with status := .Rejected } :: back }) := by
  constructor
  · intro hfilter
    obtain ⟨front, back, hl, hf, hb, hp⟩ := filter_eq_single hfilter
    have htx : tx.id = txId ∧ tx.status = .Pending := of_decide_eq_true hp
    refine ⟨front, back, hl, ?_⟩
    rw [reject, if_neg (by simp [hid]), if_pos rfl, hl,
      rejectScan_single txId front back tx hf hb htx]
  · intro hfilter
    obtain ⟨front, back, hl, hf, hb, hp⟩ := filter_eq_single hfilter
    have htx : tx.id = txId ∧ tx.status = .Pending := of_decide_eq_true hp
    refine ⟨front, back, hl, ?_⟩
    rw [reject, if_neg (by simp [hid]), if_neg (by decide), if_pos rfl, hl,
      rejectScan_single txId front back tx hf hb htx]

/-- Witness for C9 at `poorUser`: rejecting the Pending withdrawal `'w1'`
turns exactly that entry Rejected and touches nothing else (in
particular the balance stays 50). -/
theorem reject_spec_witness :
    ∃ front back,
      poorUser.withdrawHistory = front ++ bigWithdrawal :: back ∧
      reject poorUser "w1" "withdrawal" =
        .ok { poorUser with
              withdrawHistory :=
                front ++ { bigWithdrawal with status := .Rejected } :: back } :=
  (reject_spec poorUser "w1" bigWithdrawal (by decide)).2 (by decide)

/-- C6 (amended): when the transactionId (non-falsy) names no Pending
transaction of the given type, the operation does NOT fail with
`TransactionNotFound` — no such error exists in the code. Deposit
approvals and rejections of either type return success with the user
state unchanged; a withdrawal approval first runs the balance guard
against the caller-supplied amount, failing with `InsufficientBalance`
when `balance < amount` and otherwise returning success with the state
unchanged. -/
theorem approve_reject_no_pending_match (u : User) (txId : String)
    (amount : Int) (hid : txId ≠ "")
    (hd : noPendingWith txId u.depositHistory)
    (hw : noPendingWith txId u.withdrawHistory) :
    approve u txId "deposit" amount = .ok (u, u.balance) ∧
    reject u txId "deposit" = .ok u ∧
    (u.balance < amount →
      approve u txId "withdrawal" amount = .error .InsufficientBalance) ∧
    (amount ≤ u.balance →
      approve u txId "withdrawal" amount = .ok (u, u.balance)) ∧
    reject u txId "withdrawal" = .ok u := by
  have hvd : ¬(txId = "" ∨ ("deposit" : String) = "") := by simp [hid]
  have hvw : ¬(txId = "" ∨ ("withdrawal" : String) = "") := by simp [hid]
  refine ⟨?_, ?_, ?_, ?_, ?_⟩
  · rw [approve, if_neg hvd, if_pos rfl,
      approveScan_of_noPendingWith txId 1 u.depositHistory u.balance hd]
  · rw [reject, if_neg hvd, if_pos rfl,
      rejectScan_of_noPendingWith txId u.depositHistory hd]
  · intro hba
    rw [approve, if_neg hvw, if_neg (by decide), if_pos rfl, if_pos hba]
  · intro hba
    rw [approve, if_neg hvw, if_neg (by decide), if_pos rfl,
      if_neg (by omega),
      approveScan_of_noPendingWith txId (-1) u.withdrawHistory u.balance hw]
  · rw [reject, if_neg hvw, if_neg (by decide), if_pos rfl,
      rejectScan_of_noPendingWith txId u.withdrawHistory hw]

/-- Witness for C6 (amended) at `settledUser` (a single Approved deposit,
balance 100): approval and rejection of `'d1'` succeed with nothing
changed, and the withdrawal-approval guard splits on the caller amount. -/
theorem approve_reject_no_pending_match_witness :
    approve settledUser "d1" "deposit" 50 = .ok (settledUser, 100) ∧
    reject settledUser "d1" "deposit" = .ok settledUser ∧
    ((100 : Int) < 500 →
      approve settledUser "d1" "withdrawal" 500 =
        .error .InsufficientBalance) ∧
    ((500 : Int) ≤ 100 →
      approve settledUser "d1" "withdrawal" 500 = .ok (settledUser, 100)) ∧
    reject settledUser "d1" "withdrawal" = .ok settledUser := by
  have h := approve_reject_no_pending_match settledUser "d1" 500
    (by decide)
    (by intro t ht hid hs
        simp only [settledUser, List.mem_singleton] at ht
        subst ht
        exact TxStatus.noConfusion hs)
    (by intro t ht hid hs
        simp only [settledUser, List.not_mem_nil] at ht)
  have hbal : settledUser.balance = 100 := rfl
  rw [hbal] at h
  exact h

theorem stepOp_approve_of_noPending (u : User) (txId ty : String)
    (amount : Int) (hd : noPendingWith txId u.depositHistory)
    (hw : noPendingWith txId u.withdrawHistory) :
    stepOp u (.approveOp txId ty amount) = u := by
  rw [stepOp_approve]
  split_ifs with h1 h2 h3 h4
  · rfl
  · rw [approveScan_of_noPendingWith txId 1 u.depositHistory u.balance hd]
  · rfl
  · rw [approveScan_of_noPendingWith txId (-1) u.withdrawHistory u.balance hw]
  · rfl

theorem stepOp_reject_of_noPending (u : User) (txId ty : String)
    (hd : noPendingWith txId u.depositHistory)
    (hw : noPendingWith txId u.withdrawHistory) :
    stepOp u (.rejectOp txId ty) = u := by
  rw [stepOp_reject]
  split_ifs with h1 h2 h3
  · rfl
  · rw [rejectScan_of_noPendingWith txId u.depositHistory hd]
  · rw [rejectScan_of_noPendingWith txId u.withdrawHistory hw]
  · rfl

/-- C4: approval and rejection are idempotent with respect to non-Pending
transactions. When the given id matches no Pending transaction (in
particular when the transaction it names has already left Pending), both
calls leave the stored user — every transaction's status and the balance
— unchanged. Unconditionally, running approve twice with the same
arguments stores the same user (hence the same balance) as running it
once, and likewise for reject; and after a successful approve, a reject
of the same id and type (or vice versa) changes neither status nor
balance. -/
theorem approve_reject_idempotent (u : User) (txId ty : String)
    (amount : Int) :
    ((noPendingWith txId u.depositHistory ∧
        noPendingWith txId u.withdrawHistory) →
      stepOp u (.approveOp txId ty amount) = u ∧
      stepOp u (.rejectOp txId ty) = u) ∧
    stepOp (stepOp u (.approveOp txId ty amount)) (.approveOp txId ty amount)
      = stepOp u (.approveOp txId ty amount) ∧
    stepOp (stepOp u (.rejectOp txId ty)) (.rejectOp txId ty)
      = stepOp u (.rejectOp txId ty) ∧
    ((approve u txId ty amount).isOk = true →
      stepOp (stepOp u (.approveOp txId ty amount)) (.rejectOp txId ty)
        = stepOp u (.approveOp txId ty amount)) ∧
    ((reject u txId ty).isOk = true →
      stepOp (stepOp u (.rejectOp txId ty)) (.approveOp txId ty amount)
        = stepOp u (.rejectOp txId ty)) := by
  refine ⟨?_, ?_, ?_, ?_, ?_⟩
  · rintro ⟨hd, hw⟩
    exact ⟨stepOp_approve_of_noPending u txId ty amount hd hw,
      stepOp_reject_of_noPending u txId ty hd hw⟩
  · by_cases hv : txId = "" ∨ ty = ""
    · have h1 : stepOp u (.approveOp txId ty amount) = u := by
        rw [stepOp_approve, if_pos hv]
      rw [h1, h1]
    · by_cases hdep : ty = "deposit"
      · have h1 : stepOp u (.approveOp txId ty amount) =
            { u with
              depositHistory := (approveScan txId 1 u.depositHistory u.balance).1
              balance := (approveScan txId 1 u.depositHistory u.balance).2 } := by
          rw [stepOp_approve, if_neg hv, if_pos hdep]
        rw [h1, stepOp_approve, if_neg hv, if_pos hdep,
          approveScan_of_noPendingWith txId 1 _ _
            (noPendingWith_approveScan txId 1 u.depositHistory u.balance)]
      · by_cases hwd : ty = "withdrawal"
        · by_cases hbal : u.balance < amount
          · have h1 : stepOp u (.approveOp txId ty amount) = u := by
              rw [stepOp_approve, if_neg hv, if_neg hdep, if_pos hwd,
                if_pos hbal]
            rw [h1, h1]
          · have h1 : stepOp u (.approveOp txId ty amount) =
                { u with
                  withdrawHistory :=
                    (approveScan txId (-1) u.withdrawHistory u.balance).1
                  balance :=
                    (approveScan txId (-1) u.withdrawHistory u.balance).2 } := by
              rw [stepOp_approve, if_neg hv, if_neg hdep, if_pos hwd,
                if_neg hbal]
            rw [h1, stepOp_approve, if_neg hv, if_neg hdep, if_pos hwd]
            split_ifs with hbal2
            · rfl
            · rw [approveScan_of_noPendingWith txId (-1) _ _
                (noPendingWith_approveScan txId (-1) u.withdrawHistory u.balance)]
        · have h1 : stepOp u (.approveOp txId ty amount) = u := by
            rw [stepOp_approve, if_neg hv, if_neg hdep, if_neg hwd]
          rw [h1, h1]
  · by_cases hv : txId = "" ∨ ty = ""
    · have h1 : stepOp u (.rejectOp txId ty) = u := by
        rw [stepOp_reject, if_pos hv]
      rw [h1, h1]
    · by_cases hdep : ty = "deposit"
      · have h1 : stepOp u (.rejectOp txId ty) =
            { u with depositHistory := rejectScan txId u.depositHistory } := by
          rw [stepOp_reject, if_neg hv, if_pos hdep]
        rw [h1, stepOp_reject, if_neg hv, if_pos hdep,
          rejectScan_of_noPendingWith txId _
            (noPendingWith_rejectScan txId u.depositHistory)]
      · by_cases hwd : ty = "withdrawal"
        · have h1 : stepOp u (.rejectOp txId ty) =
              { u with withdrawHistory := rejectScan txId u.withdrawHistory } := by
            rw [stepOp_reject, if_neg hv, if_neg hdep, if_pos hwd]
          rw [h1, stepOp_reject, if_neg hv, if_neg hdep, if_pos hwd,
            rejectScan_of_noPendingWith txId _
              (noPendingWith_rejectScan txId u.withdrawHistory)]
        · have h1 : stepOp u (.rejectOp txId ty) = u := by
            rw [stepOp_reject, if_neg hv, if_neg hdep, if_neg hwd]
          rw [h1, h1]
  · intro hok
    by_cases hv : txId = "" ∨ ty = ""
    · rw [approve, if_pos hv] at hok
      exact absurd hok (by decide)
    · by_cases hdep : ty = "deposit"
      · have h1 : stepOp u (.approveOp txId ty amount) =
            { u with
              depositHistory := (approveScan txId 1 u.depositHistory u.balance).1
              balance := (approveScan txId 1 u.depositHistory u.balance).2 } := by
          rw [stepOp_approve, if_neg hv, if_pos hdep]
        rw [h1, stepOp_reject, if_neg hv, if_pos hdep,
          rejectScan_of_noPendingWith txId _
            (noPendingWith_approveScan txId 1 u.depositHistory u.balance)]
      · by_cases hwd : ty = "withdrawal"
        · by_cases hbal : u.balance < amount
          · rw [approve, if_neg hv, if_neg hdep, if_pos hwd, if_pos hbal]
              at hok
            exact absurd hok (by decide)
          · have h1 : stepOp u (.approveOp txId ty amount) =
                { u with
                  withdrawHistory :=
                    (approveScan txId (-1) u.withdrawHistory u.balance).1
                  balance :=
                    (approveScan txId (-1) u.withdrawHistory u.balance).2 } := by
              rw [stepOp_approve, if_neg hv, if_neg hdep, if_pos hwd,
                if_neg hbal]
            rw [h1, stepOp_reject, if_neg hv, if_neg hdep, if_pos hwd,
              rejectScan_of_noPendingWith txId _
                (noPendingWith_approveScan txId (-1) u.withdrawHistory u.balance)]
        · rw [approve, if_neg hv, if_neg hdep, if_neg hwd] at hok
          exact absurd hok (by decide)
  · intro hok
    by_cases hv : txId = "" ∨ ty = ""
    · rw [reject, if_pos hv] at hok
      exact absurd hok (by decide)
    · by_cases hdep : ty = "deposit"
      · have h1 : stepOp u (.rejectOp txId ty) =
            { u with depositHistory := rejectScan txId u.depositHistory } := by
          rw [stepOp_reject, if_neg hv, if_pos hdep]
        rw [h1, stepOp_approve, if_neg hv, if_pos hdep,
          approveScan_of_noPendingWith txId 1 _ _
            (noPendingWith_rejectScan txId u.depositHistory)]
      · by_cases hwd : ty = "withdrawal"
        · have h1 : stepOp u (.rejectOp txId ty) =
              { u with withdrawHistory := rejectScan txId u.withdrawHistory } := by
            rw [stepOp_reject, if_neg hv, if_neg hdep, if_pos hwd]
          rw [h1, stepOp_approve, if_neg hv, if_neg hdep, if_pos hwd]
          split_ifs with hbal2
          · rfl
          · rw [approveScan_of_noPendingWith txId (-1) _ _
              (noPendingWith_rejectScan txId u.withdrawHistory)]
        · rw [reject, if_neg hv, if_neg hdep, if_neg hwd] at hok
          exact absurd hok (by decide)

/-- Witness for C4 at `settledUser` and its already-Approved transaction
`'d1'`: approve and reject are no-ops there, both calls are idempotent,
and the cross no-ops hold (the successful-call hypotheses are discharged
by evaluation). -/
theorem approve_reject_idempotent_witness :
    (stepOp settledUser (.approveOp "d1" "deposit" 5) = settledUser ∧
      stepOp settledUser (.rejectOp "d1" "deposit") = settledUser) ∧
    stepOp (stepOp settledUser (.approveOp "d1" "deposit" 5))
        (.approveOp "d1" "deposit" 5)
      = stepOp settledUser (.approveOp "d1" "deposit" 5) ∧
    stepOp (stepOp settledUser (.rejectOp "d1" "deposit"))
        (.rejectOp "d1" "deposit")
      = stepOp settledUser (.rejectOp "d1" "deposit") ∧
    stepOp (stepOp settledUser (.approveOp "d1" "deposit" 5))
        (.rejectOp "d1" "deposit")
      = stepOp settledUser (.approveOp "d1" "deposit" 5) ∧
    stepOp (stepOp settledUser (.rejectOp "d1" "deposit"))
        (.approveOp "d1" "deposit" 5)
      = stepOp settledUser (.rejectOp "d1" "deposit") := by
  have h := approve_reject_idempotent settledUser "d1" "deposit" 5
  exact ⟨h.1 ⟨by unfold noPendingWith; decide, by unfold noPendingWith; decide⟩,
    h.2.1, h.2.2.1, h.2.2.2.1 (by decide), h.2.2.2.2 (by decide)⟩

/-- C8: the admin pending listing returns exactly the transactions with
status Pending drawn from both histories of all users — each tagged with
its owning userId and a `'deposit'`/`'withdrawal'` type — sorted
non-decreasing by creation timestamp (oldest first); being a pure
function of the store, it modifies no user state. "Exactly" is stated
both as a permutation of the accumulated pending entries and as a
membership characterisation. -/
theorem listPending_spec (store : List (String × User)) :
    (∀ e ∈ listPending store, e.tx.status = .Pending) ∧
    List.Pairwise (fun a b : Tagged => a.tx.date ≤ b.tx.date)
      (listPending store) ∧
    (listPending store).Perm (pendingAll store) ∧
    ∀ e : Tagged, e ∈ listPending store ↔
      ∃ uid u, (uid, u) ∈ store ∧ e.userId = uid ∧ e.tx.status = .Pending ∧
        ((e.ty = "deposit" ∧ e.tx ∈ u.depositHistory) ∨
         (e.ty = "withdrawal" ∧ e.tx ∈ u.withdrawHistory)) := by
  have hperm : (listPending store).Perm (pendingAll store) :=
    List.mergeSort_perm (pendingAll store) dateLe
  have hmem : ∀ e : Tagged, e ∈ listPending store ↔
      ∃ uid u, (uid, u) ∈ store ∧ e.userId = uid ∧ e.tx.status = .Pending ∧
        ((e.ty = "deposit" ∧ e.tx ∈ u.depositHistory) ∨
         (e.ty = "withdrawal" ∧ e.tx ∈ u.withdrawHistory)) :=
    fun e => hperm.mem_iff.trans (mem_pendingAll store e)
  refine ⟨?_, ?_, hperm, hmem⟩
  · intro e he
    obtain ⟨uid, u, _, _, hstat, _⟩ := (hmem e).1 he
    exact hstat
  · have hs := @List.sorted_mergeSort Tagged dateLe
      (fun a b c hab hbc => by
        simp only [dateLe, decide_eq_true_eq] at hab hbc ⊢
        omega)
      (fun a b => by
        simp only [dateLe, Bool.or_eq_true, decide_eq_true_eq]
        omega)
      (pendingAll store)
    exact hs.imp fun h => of_decide_eq_true h

/-- Witness for C8 at the one-user store holding `poorUser`: the listing
contains the tagged Pending withdrawal, whose status is Pending, and the
listing is date-sorted. -/
theorem listPending_spec_witness :
    ({ tx := bigWithdrawal, userId := "e", ty := "withdrawal" } : Tagged).tx.status
        = .Pending ∧
    List.Pairwise (fun a b : Tagged => a.tx.date ≤ b.tx.date)
      (listPending [("e", poorUser)]) := by
  have h := listPending_spec [("e", poorUser)]
  have hmem :
      ({ tx := bigWithdrawal, userId := "e", ty := "withdrawal" } : Tagged)
        ∈ listPending [("e", poorUser)] :=
    (h.2.2.2 _).2 ⟨"e", poorUser, by decide, rfl, by decide,
      Or.inr ⟨rfl, by decide⟩⟩
  exact ⟨h.1 _ hmem, h.2.1⟩

end DailyEarners
